import Mathlib

/-!
# Verification of the College_Predictor repository

Shallow embedding of the CET College Predictor. The repository consists of
several near-duplicate React front ends (under `src/unnamed/part_000` …
`part_003` and `src/college-predictor-frontend/src/App.js`) plus a backend
Docker/requirements shell; the backend query engine itself (`main.py`) is not
present in the source tree, so the engine is modelled from the spec where a
claim needs it, while all front-end behaviour is embedded directly from the
JavaScript source.

Strings handled character-wise (the `/branches` payload split) are modelled as
`List Char`; everything else uses `String`.
-/

namespace CollegePredictor

/-! ## JavaScript primitives used by the front ends -/

/-- Numeric value of a list of decimal digit characters (most significant
first), as accumulated by JavaScript `parseInt` after it has selected the
digit prefix. -/
def digitsVal (ds : List Char) : Nat :=
  ds.foldl (fun a c => a * 10 + (c.toNat - '0'.toNat)) 0

/-- Embedding of JavaScript `parseInt(s, 10)`: skip leading whitespace, read
an optional sign, then take the longest prefix of decimal digits; `NaN`
(here `none`) exactly when that prefix is empty.  Note that trailing
garbage is ignored, so e.g. `parseInt("12abc") = 12`. -/
def jsParseInt (s : String) : Option Int :=
  let cs := s.toList.dropWhile (fun c => c == ' ' || c == '\t' || c == '\n' || c == '\r')
  match cs with
  | '-' :: rest =>
    let ds := rest.takeWhile Char.isDigit
    if ds.isEmpty then none else some (-(digitsVal ds : Int))
  | '+' :: rest =>
    let ds := rest.takeWhile Char.isDigit
    if ds.isEmpty then none else some (digitsVal ds : Int)
  | _ =>
    let ds := cs.takeWhile Char.isDigit
    if ds.isEmpty then none else some (digitsVal ds : Int)

/-- Embedding of JavaScript `str.split(" ")` on a character list: cut at
every space, keeping empty fields (so the result is never empty and a
leading space yields an empty first field, exactly as in JS). -/
def jsSplitSpace : List Char → List (List Char)
  | [] => [[]]
  | c :: rest =>
    match jsSplitSpace rest with
    | [] => [[]]
    | f :: fs => if c = ' ' then [] :: f :: fs else (c :: f) :: fs

/-! ## Static branch-code → name table

From `src/unnamed/part_003` (`college-predictor-frontend/src/branchMap.js`),
embedded as an association list in source order. -/

def BRANCH_MAP : List (String × String) :=
  [ ("AI", "Artificial Intelligence")
  , ("AR", "Architecture")
  , ("AE", "Aeronaut. Engg")
  , ("AM", "B Tech in AM")
  , ("BB", "B Tech in EC")
  , ("BW", "B Tech in CS")
  , ("BJ", "B Tech in EE")
  , ("CB", "Comp. Sc. and Bus Sys.")
  , ("CF", "CS (Artificial Intel.)")
  , ("CL", "B Tech in EO")
  , ("CM", "B Tech in EV")
  , ("CR", "Ceramics")
  , ("CV", "Civil (Environment Engg)")
  , ("CY", "CS – Cyber Security")
  , ("DC", "Data Sciences")
  , ("DF", "B Tech in RA")
  , ("DS", "Comp. Sc. Engg – Data Sc.")
  , ("EA", "Agriculture Engg")
  , ("EB", "EAT (Electronics & Telecom.)")
  , ("EC", "Electronics")
  , ("EI", "Elec. Inst. Engg")
  , ("EL", "Electronics, Instr. Tech.")
  , ("EN", "Environmental Engg")
  , ("ES", "Electronics & Computer")
  , ("ET", "Elec. Telecommn. Engg.")
  , ("EV", "EC Engg (VLSI Design)")
  , ("IE", "Info. Science")
  , ("IM", "Ind. Engg. Mgmt.")
  , ("IP", "Ind. Prodn.")
  , ("LD", "B Tech in DS")
  , ("LE", "B Tech in AIML")
  , ("LF", "B Tech in CC")
  , ("LG", "B Tech in CS")
  , ("LH", "B Tech in IS")
  , ("LJ", "B Tech in BS")
  , ("LK", "B Tech in IOT")
  , ("ME", "Mechanical")
  , ("MI", "Mining Engg")
  , ("MD", "Med. Elect.")
  , ("OT", "Industrial IOT")
  , ("PT", "Polymer Tech.")
  , ("RA", "Robotics and Automation")
  , ("RO", "Auto. & Robot.")
  , ("SE", "Aero Space Engg.")
  , ("ST", "Silk Tech.")
  , ("TX", "Textiles")
  , ("ZN", "B Tech in Pharm. Engg.")
  , ("ZO", "B Tech in CS & Busi. Sys.") ]

/-- Embedding of the display expression `BRANCH_MAP[code] || ""` used by the
front ends (`part_001` line 213, `App.js` lines 388/461/472): a present,
truthy name is shown; a missing (or falsy, i.e. empty) name yields `""`. -/
def displayedBranchName (code : String) : String :=
  match BRANCH_MAP.lookup code with
  | some name => if name = "" then "" else name
  | none => ""

/-! ## Branch dropdown codes from the `/branches` payload

From `src/unnamed/part_001` lines 50-55:
`const codes = data.map((b) => b.split(" ")[0]);`. -/

/-- `b.split(" ")[0]` for one payload entry. -/
def branchCodeOf (b : List Char) : List Char :=
  (jsSplitSpace b).headD []

/-- The dropdown code list derived from the `/branches` payload. -/
def branchCodesFromPayload (payload : List (List Char)) : List (List Char) :=
  payload.map branchCodeOf

/-! ## Category selection after the mount-time `/categories` fetch

From `src/unnamed/part_000` lines 22-37 / `part_001` lines 29-42: on success
`setCategories(data); if (data.length > 0) setCategory(data[0]);`, on failure
the category state is left untouched.  The category state starts as `""`
(`useState("")`). `none` models the fetch failing (the `.catch` path). -/

/-- The `.then` success callback's effect on the selected category. -/
def onCategoriesFetched (prev : String) (data : List String) : String :=
  if h : 0 < data.length then data.get ⟨0, h⟩ else prev

/-- Selected category after the mount effect resolves, starting from the
initial `useState("")` state. -/
def categoryAfterMount (outcome : Option (List String)) : String :=
  match outcome with
  | some data => onCategoriesFetched "" data
  | none => ""

/-! ## The predict submission handlers

`AppState` carries the three pieces of component state that the handlers
write: `results`, `error`, `loading` (`part_001` lines 13-20).  The row type
is a parameter since the handlers never inspect the payload.  A fetch is
modelled by its outcome: `ok data` (2xx with parsed JSON), `httpError d`
(non-ok response whose body carried `detail` `d`, rethrown as
`Error fetching results: d`), `networkError m` (fetch rejection).  Request
URLs are modelled as their ordered query-parameter lists. -/

structure AppState (ρ : Type) where
  results : List ρ
  error : String
  loading : Bool
deriving DecidableEq, Repr

inductive FetchOutcome (ρ : Type)
  | ok (data : List ρ)
  | httpError (detail : String)
  | networkError (msg : String)
deriving DecidableEq

/-- Error message of `part_001` line 74 / `App.js` line 257 (rank field). -/
def validRankMsg : String := "Please enter a valid rank (a positive integer)."

/-- Error message of `part_001` line 79 / `App.js` line 263 (category field). -/
def selectCategoryMsg : String := "Please select a category."

/-- Fetch-failure message template of `part_001` line 100. -/
def fetchErrMsg (m : String) : String := "Error fetching results: " ++ m

/-- Query parameters of the `/predict` URL built at `part_001` lines 84-88:
rank and category always, the branch parameter only when `branch` is a
non-empty selection. -/
def predictParams (n : Int) (category branch : String) : List (String × String) :=
  [("rank", toString n), ("category", category)]
    ++ (if branch = "" then [] else [("branch", branch)])

/-- Embedding of `handleSubmit` from `src/unnamed/part_001` lines 66-104
(identical to `src/college-predictor-frontend/src/App.js` lines 249-286).
The handler first clears `error` and `results` and sets `loading`; it then
validates `parseInt(rank, 10)` to be a positive integer and `category` to be
non-empty, early-returning with a field-specific message and no request;
otherwise it issues the request and stores either the payload or a fetch
error.  Returns the final state and the issued request, `none` when no
request was sent.  `prev` is the component state at submit time; every field
is overwritten before use, so it is never read. -/
def handleSubmit {ρ : Type} (prev : AppState ρ) (rank category branch : String)
    (fetch : FetchOutcome ρ) : AppState ρ × Option (List (String × String)) :=
  let st0 : AppState ρ := { results := [], error := "", loading := true }
  match jsParseInt rank with
  | none => ({ st0 with error := validRankMsg, loading := false }, none)
  | some n =>
    if n ≤ 0 then ({ st0 with error := validRankMsg, loading := false }, none)
    else if category = "" then
      ({ st0 with error := selectCategoryMsg, loading := false }, none)
    else
      let ps := predictParams n category branch
      match fetch with
      | .ok data => ({ st0 with results := data, loading := false }, some ps)
      | .httpError d => ({ st0 with error := fetchErrMsg d, loading := false }, some ps)
      | .networkError m => ({ st0 with error := fetchErrMsg m, loading := false }, some ps)

/-- Embedding of the older `handleSubmit` variant from `src/unnamed/part_000`
lines 58-88: it clears state, checks only `isNaN(parseInt(rank, 10))`
(message "Rank must be a number"), performs no positivity and no category
check, and always appends the branch parameter to the URL
(`&branch=${encodeURIComponent(branch)}`), even for an empty selection. -/
def handleSubmit_v0 {ρ : Type} (prev : AppState ρ) (rank category branch : String)
    (fetch : FetchOutcome ρ) : AppState ρ × Option (List (String × String)) :=
  let st0 : AppState ρ := { results := [], error := "", loading := true }
  match jsParseInt rank with
  | none => ({ st0 with error := "Rank must be a number", loading := false }, none)
  | some n =>
    let ps : List (String × String) :=
      [("rank", toString n), ("category", category), ("branch", branch)]
    match fetch with
    | .ok data => ({ st0 with results := data, loading := false }, some ps)
    | .httpError d => ({ st0 with error := "Error fetching results", loading := false }, some ps)
    | .networkError m => ({ st0 with error := "Error fetching results", loading := false }, some ps)

/-- Query parameters built by `onFindColleges` in `src/unnamed/part_002`
lines 81-94: require course, category and a non-empty rank string (else an
alert and no request); the branch parameter is set only when
`selectedBranch` is non-empty. -/
def onFindCollegesParams (course rank category branch : String) :
    Option (List (String × String)) :=
  if course = "" || category = "" || rank = "" then none
  else some ([("course", course), ("rank", rank), ("category", category)]
    ++ (if branch = "" then [] else [("branch", branch)]))

/-! ## Render-state predicates

From the JSX of `src/unnamed/part_001` lines 139-143, 231 and 318-323:
the error box shows iff `error` is truthy, the results section iff
`results.length > 0`, and the informational prompt iff
`!loading && results.length === 0 && !error`. -/

def showsErrorBox {ρ : Type} (st : AppState ρ) : Bool :=
  !(st.error == "")

def showsResults {ρ : Type} (st : AppState ρ) : Bool :=
  decide (0 < st.results.length)

def showsInfoMessage {ρ : Type} (st : AppState ρ) : Bool :=
  !st.loading && st.results.isEmpty && st.error == ""

/-! ## The `part_002` consumer

`src/unnamed/part_002` keeps no predict error state at all: its
`onFindColleges` fetch (lines 94-105) stores the payload on success and on
any failure only does `console.error(err); setResults([])`.  Its table body
(lines 289-302) renders a "No eligible colleges found." row exactly when
`results.length === 0`. -/

/-- The `results` state after `onFindColleges`'s fetch settles
(`part_002` lines 94-105): payload on success, cleared on any failure. -/
def onFindCollegesResults {ρ : Type} (fetch : FetchOutcome ρ) : List ρ :=
  match fetch with
  | .ok data => data
  | .httpError _ => []
  | .networkError _ => []

/-- Whether `part_002`'s table shows the "No eligible colleges found." row
(lines 289-302). -/
def showsNoCollegesRow {ρ : Type} (results : List ρ) : Bool :=
  results.isEmpty

/-! ## The Eligibility Query Engine

Modelled from the spec: the backend query engine (`main.py`, spec sections
3, 4.2 and 4.3) is not part of the source tree — only its Dockerfile,
requirements and front-end callers are — so the data model and the predict
operation are embedded from the spec's words here. -/

/-- Modelled from the spec: the canonical `CutoffRecord` of spec section 3
(the backend's row type; `main.py` is absent from the tree). -/
structure CutoffRecord where
  course : String
  college_code : String
  college_name : String
  branch_code : String
  branch_name : String
  category : String
  cutoff_rank : Nat
deriving DecidableEq, Repr

/-- Modelled from the spec: one `BranchOffering` of spec section 3. -/
structure BranchOffering where
  branch_code : String
  branch_name : String
  cutoff_rank : Nat
deriving DecidableEq, Repr

/-- Modelled from the spec: one flat row of the branch-supplied predict
path (spec section 4.3 step 2). -/
structure FlatRow where
  college_code : String
  college_name : String
  branch_code : String
  branch_name : String
  cutoff_rank : Nat
deriving DecidableEq, Repr

/-- Modelled from the spec: one grouped row of the branch-omitted predict
path (spec section 4.3 step 3). -/
structure GroupedRow where
  college_code : String
  college_name : String
  branches : List BranchOffering
deriving DecidableEq, Repr

/-- Modelled from the spec: the two explicitly typed response shapes of the
predict operation (spec sections 4.3 and 9: FlatRow vs GroupedRow). -/
inductive PredictResponse
  | flat (rows : List FlatRow)
  | grouped (rows : List GroupedRow)
deriving DecidableEq, Repr

/-- Insertion of `a` into `l` before the first element `b` with
`le a b = true`. -/
def insertLe {α : Type} (le : α → α → Bool) (a : α) : List α → List α
  | [] => [a]
  | b :: bs => if le a b then a :: b :: bs else b :: insertLe le a bs

/-- Insertion sort by the boolean relation `le`. -/
def sortLe {α : Type} (le : α → α → Bool) : List α → List α
  | [] => []
  | a :: as => insertLe le a (sortLe le as)

/-- First-appearance deduplication: keeps the first occurrence of every
element, in order of first appearance. -/
def dedupFirst : List String → List String
  | [] => []
  | x :: xs => x :: (dedupFirst xs).filter (fun y => y ≠ x)

/-- Modelled from the spec: the Cutoff Index primary keying
`byCourseCategory(course, category)` of spec section 4.2. -/
def byCourseCategory (records : List CutoffRecord) (course category : String) :
    List CutoffRecord :=
  records.filter (fun r => r.course == course && r.category == category)

/-- Modelled from the spec: the Cutoff Index secondary keying
`byCourseCategoryBranch(course, category, branch)` of spec section 4.2. -/
def byCourseCategoryBranch (records : List CutoffRecord)
    (course category branch : String) : List CutoffRecord :=
  records.filter
    (fun r => r.course == course && r.category == category && r.branch_code == branch)

/-- Modelled from the spec: `distinctBranches(course)` of spec section 4.2,
the branch-code catalogue of a course. -/
def distinctBranches (records : List CutoffRecord) (course : String) : List String :=
  dedupFirst ((records.filter (fun r => r.course == course)).map (fun r => r.branch_code))

/-- Modelled from the spec: the survivors of the eligibility test
`rank ≤ cutoff_rank` on the branch-omitted path (spec section 4.3 step 3). -/
def eligibleRecords (records : List CutoffRecord) (course category : String)
    (rank : Nat) : List CutoffRecord :=
  (byCourseCategory records course category).filter (fun r => rank ≤ r.cutoff_rank)

/-- Flat-path ordering: ascending cutoff_rank, tie-break by college_code
ascending (spec section 4.3 step 2). -/
def flatLe (a b : CutoffRecord) : Bool :=
  decide (a.cutoff_rank < b.cutoff_rank)
    || (a.cutoff_rank == b.cutoff_rank
        && (decide (a.college_code < b.college_code) || a.college_code == b.college_code))

/-- Grouped-path intra-college ordering: branches ascending by cutoff_rank
(spec section 4.3 step 3). -/
def branchLe (a b : CutoffRecord) : Bool :=
  decide (a.cutoff_rank ≤ b.cutoff_rank)

/-- Modelled from the spec: the branch-supplied predict path (spec section
4.3 step 2): fetch by (course, category, branch), keep records with
`rank ≤ cutoff_rank`, sort, emit flat rows. -/
def predictFlat (records : List CutoffRecord) (course category : String)
    (rank : Nat) (branch : String) : List FlatRow :=
  let elig := (byCourseCategoryBranch records course category branch).filter
    (fun r => rank ≤ r.cutoff_rank)
  (sortLe flatLe elig).map (fun r =>
    { college_code := r.college_code
      college_name := r.college_name
      branch_code := r.branch_code
      branch_name := r.branch_name
      cutoff_rank := r.cutoff_rank })

/-- The `BranchOffering` derived from a record. -/
def offeringOf (r : CutoffRecord) : BranchOffering :=
  { branch_code := r.branch_code
    branch_name := r.branch_name
    cutoff_rank := r.cutoff_rank }

/-- One grouped row: the college `code`'s slice of the eligible records,
branches ordered ascending by cutoff_rank (spec section 4.3 step 3). -/
def groupRow (elig : List CutoffRecord) (code : String) : GroupedRow :=
  let group := elig.filter (fun r => r.college_code == code)
  { college_code := code
    college_name := ((group.head?).map (fun r => r.college_name)).getD ""
    branches := (sortLe branchLe group).map offeringOf }

/-- Modelled from the spec: the branch-omitted predict path (spec section
4.3 step 3): fetch by (course, category), keep records with
`rank ≤ cutoff_rank`, group by college_code in first-appearance order,
order each college's branches ascending by cutoff_rank. -/
def predictGrouped (records : List CutoffRecord) (course category : String)
    (rank : Nat) : List GroupedRow :=
  let elig := eligibleRecords records course category rank
  (dedupFirst (elig.map (fun r => r.college_code))).map (groupRow elig)

/-- Modelled from the spec: the predict operation's dispatch on the optional
branch input (spec section 4.3): branch supplied → flat rows, branch
omitted → grouped rows. -/
def predict (records : List CutoffRecord) (course category : String) (rank : Nat)
    (branch : Option String) : PredictResponse :=
  match branch with
  | some b => .flat (predictFlat records course category rank b)
  | none => .grouped (predictGrouped records course category rank)

/-- `true` on the flat response variant. -/
def isFlatShape : PredictResponse → Bool
  | .flat _ => true
  | .grouped _ => false

/-- The optional branch parameter the front end attaches to the request:
present iff the selection is non-empty (`part_001` lines 86-88). -/
def mkBranchParam (branch : String) : Option String :=
  if branch = "" then none else some branch

/-- Whether the front end renders the flat (single-branch) table: the JSX at
`part_001` line 255 branches on the truthiness of its own `branch` state. -/
def rendersFlatTable (branch : String) : Bool :=
  !(branch == "")

/-- The (college_code, branch_code, cutoff_rank) triple of a record. -/
def tripleOf (r : CutoffRecord) : String × String × Nat :=
  (r.college_code, r.branch_code, r.cutoff_rank)

/-- Ungrouping the branch-omitted response into its
(college_code, branch_code, cutoff_rank) triples. -/
def groupedTriples (records : List CutoffRecord) (course category : String)
    (rank : Nat) : List (String × String × Nat) :=
  (predictGrouped records course category rank).flatMap (fun g =>
    g.branches.map (fun o => (g.college_code, o.branch_code, o.cutoff_rank)))

/-- The (college_code, branch_code, cutoff_rank) triples of one
branch-supplied query. -/
def flatTriples (records : List CutoffRecord) (course category : String)
    (rank : Nat) (branch : String) : List (String × String × Nat) :=
  (predictFlat records course category rank branch).map (fun row =>
    (row.college_code, row.branch_code, row.cutoff_rank))

/-- The union of the single-branch query results, run once per branch of the
course's branch catalogue. -/
def unionTriples (records : List CutoffRecord) (course category : String)
    (rank : Nat) : List (String × String × Nat) :=
  (distinctBranches records course).flatMap (fun b =>
    flatTriples records course category rank b)

/-- Sample record set: the worked example of spec section 8. -/
def sampleRecords : List CutoffRecord :=
  [ ⟨"engineering", "E001", "Example Inst.", "CS", "", "GM", 5000⟩
  , ⟨"engineering", "E001", "Example Inst.", "EC", "", "GM", 8000⟩
  , ⟨"engineering", "E002", "Other Inst.", "CS", "", "GM", 3000⟩ ]

/-! ## Helper lemmas -/

theorem mem_insertLe {α : Type} (le : α → α → Bool) (a x : α) (l : List α) :
    x ∈ insertLe le a l ↔ x = a ∨ x ∈ l := by
  induction l with
  | nil => simp [insertLe]
  | cons b bs ih =>
    simp only [insertLe]
    split
    · simp [List.mem_cons]
    · simp only [List.mem_cons, ih]
      tauto

theorem mem_sortLe {α : Type} (le : α → α → Bool) (x : α) (l : List α) :
    x ∈ sortLe le l ↔ x ∈ l := by
  induction l with
  | nil => simp [sortLe]
  | cons a as ih => simp [sortLe, mem_insertLe, ih]

theorem mem_dedupFirst (x : String) (l : List String) :
    x ∈ dedupFirst l ↔ x ∈ l := by
  induction l with
  | nil => simp [dedupFirst]
  | cons a as ih =>
    simp only [dedupFirst, List.mem_cons, List.mem_filter, ih, decide_eq_true_eq]
    by_cases h : x = a <;> simp [h]

theorem dedupFirst_eq_nil (l : List String) : dedupFirst l = [] ↔ l = [] := by
  cases l <;> simp [dedupFirst]

theorem mem_eligibleRecords (records : List CutoffRecord) (course category : String)
    (rank : Nat) (r : CutoffRecord) :
    r ∈ eligibleRecords records course category rank ↔
      r ∈ records ∧ r.course = course ∧ r.category = category ∧
        rank ≤ r.cutoff_rank := by
  simp only [eligibleRecords, byCourseCategory, List.mem_filter, Bool.and_eq_true,
    beq_iff_eq, decide_eq_true_eq]
  tauto

theorem mem_branches_groupRow (elig : List CutoffRecord) (code : String)
    (o : BranchOffering) :
    o ∈ (groupRow elig code).branches ↔
      ∃ r, r ∈ elig ∧ r.college_code = code ∧ o = offeringOf r := by
  simp only [groupRow, List.mem_map, mem_sortLe, List.mem_filter, beq_iff_eq]
  constructor
  · rintro ⟨r, ⟨hr, hc⟩, ho⟩
    exact ⟨r, hr, hc, ho.symm⟩
  · rintro ⟨r, hr, hc, ho⟩
    exact ⟨r, ⟨hr, hc⟩, ho.symm⟩

theorem mem_groupedTriples (records : List CutoffRecord) (course category : String)
    (rank : Nat) (t : String × String × Nat) :
    t ∈ groupedTriples records course category rank ↔
      ∃ r, r ∈ eligibleRecords records course category rank ∧ t = tripleOf r := by
  simp only [groupedTriples, predictGrouped, List.mem_flatMap, List.mem_map]
  constructor
  · rintro ⟨g, ⟨code, hcode, hg⟩, o, ho, ht⟩
    rw [← hg] at ho ht
    rw [mem_branches_groupRow] at ho
    obtain ⟨r, hr, hrc, hor⟩ := ho
    subst hor
    subst hrc
    exact ⟨r, hr, ht.symm⟩
  · rintro ⟨r, hr, ht⟩
    refine ⟨groupRow (eligibleRecords records course category rank) r.college_code,
      ⟨r.college_code, ?_, rfl⟩, offeringOf r, ?_, ?_⟩
    · rw [mem_dedupFirst]
      exact List.mem_map.mpr ⟨r, hr, rfl⟩
    · rw [mem_branches_groupRow]
      exact ⟨r, hr, rfl, rfl⟩
    · rw [ht]
      rfl

theorem mem_flatTriples (records : List CutoffRecord) (course category : String)
    (rank : Nat) (branch : String) (t : String × String × Nat) :
    t ∈ flatTriples records course category rank branch ↔
      ∃ r, r ∈ records ∧ r.course = course ∧ r.category = category ∧
        r.branch_code = branch ∧ rank ≤ r.cutoff_rank ∧ t = tripleOf r := by
  simp only [flatTriples, predictFlat, List.mem_map, mem_sortLe, List.mem_filter,
    byCourseCategoryBranch, Bool.and_eq_true, beq_iff_eq, decide_eq_true_eq]
  constructor
  · rintro ⟨row, ⟨r, ⟨⟨hr, ⟨hco, hca⟩, hb⟩, hrk⟩, hrow⟩, ht⟩
    rw [← hrow] at ht
    exact ⟨r, hr, hco, hca, hb, hrk, ht.symm⟩
  · rintro ⟨r, hr, hco, hca, hb, hrk, ht⟩
    refine ⟨⟨r.college_code, r.college_name, r.branch_code, r.branch_name,
      r.cutoff_rank⟩, ⟨r, ⟨⟨hr, ⟨hco, hca⟩, hb⟩, hrk⟩, rfl⟩, ?_⟩
    rw [ht]
    rfl

theorem mem_distinctBranches (records : List CutoffRecord) (course b : String) :
    b ∈ distinctBranches records course ↔
      ∃ r, r ∈ records ∧ r.course = course ∧ r.branch_code = b := by
  simp only [distinctBranches, mem_dedupFirst, List.mem_map, List.mem_filter,
    beq_iff_eq]
  constructor
  · rintro ⟨r, ⟨hr, hc⟩, hb⟩
    exact ⟨r, hr, hc, hb⟩
  · rintro ⟨r, hr, hc, hb⟩
    exact ⟨r, ⟨hr, hc⟩, hb⟩

theorem fetchErrMsg_ne_empty (m : String) : fetchErrMsg m ≠ "" := by
  intro h
  have hd : (fetchErrMsg m).data = "".data := congrArg String.data h
  rw [fetchErrMsg, String.data_append] at hd
  exact absurd (List.append_eq_nil.mp hd).1 (by decide)

theorem lookup_of_mem {l : List (String × String)}
    (hnd : (l.map Prod.fst).Nodup) {a b : String} (h : (a, b) ∈ l) :
    l.lookup a = some b := by
  induction l with
  | nil => simp at h
  | cons p ps ih =>
    obtain ⟨k, v⟩ := p
    simp only [List.map_cons, List.nodup_cons, List.mem_map] at hnd
    rcases List.mem_cons.mp h with h1 | h1
    · rw [Prod.mk.injEq] at h1
      obtain ⟨hk, hv⟩ := h1
      subst hk
      subst hv
      simp [List.lookup]
    · have hak : (a == k) = false := by
        simp only [beq_eq_false_iff_ne, ne_eq]
        intro hak
        exact hnd.1 ⟨(a, b), h1, by simp [hak]⟩
      simp only [List.lookup, hak]
      exact ih hnd.2 h1

theorem jsSplitSpace_ne_nil (l : List Char) : jsSplitSpace l ≠ [] := by
  cases l with
  | nil => simp [jsSplitSpace]
  | cons c rest =>
    simp only [jsSplitSpace]
    cases hrest : jsSplitSpace rest <;> simp <;> split <;> simp

theorem mem_predictGrouped_eligible (records : List CutoffRecord)
    (course category : String) (rank : Nat) (g : GroupedRow) (o : BranchOffering)
    (hg : g ∈ predictGrouped records course category rank)
    (ho : o ∈ g.branches) : rank ≤ o.cutoff_rank := by
  simp only [predictGrouped, List.mem_map] at hg
  obtain ⟨code, hcode, hgr⟩ := hg
  rw [← hgr] at ho
  rw [mem_branches_groupRow] at ho
  obtain ⟨r, hr, hrc, hor⟩ := ho
  rw [mem_eligibleRecords] at hr
  subst hor
  exact hr.2.2.2

theorem branchCodeOf_eq_takeWhile (b : List Char) :
    branchCodeOf b = b.takeWhile (fun c => !(c == ' ')) := by
  induction b with
  | nil => rfl
  | cons c rest ih =>
    have hne := jsSplitSpace_ne_nil rest
    simp only [branchCodeOf, jsSplitSpace] at ih ⊢
    cases hrest : jsSplitSpace rest with
    | nil => exact absurd hrest hne
    | cons f fs =>
      rw [hrest] at ih
      by_cases hc : c = ' '
      · simp [hrest, hc, List.takeWhile]
      · simp only [hrest, if_neg hc, List.headD_cons, List.takeWhile]
        have : (!(c == ' ')) = true := by simp [hc]
        rw [this]
        simp only [List.headD_cons] at ih
        rw [ih]

/-! ## Claim theorems -/

/-- C1: For every valid predict query with branch omitted, every branch
offering in the returned grouped result satisfies rank ≤ cutoff_rank, and a
record survives the eligibility filter if and only if the queried rank does
not exceed its historical cutoff rank. -/
theorem claim_C1_grouped_eligibility (records : List CutoffRecord)
    (course category : String) (rank : Nat) :
    (∀ g ∈ predictGrouped records course category rank,
      ∀ o ∈ g.branches, rank ≤ o.cutoff_rank)
    ∧ (∀ r, r ∈ eligibleRecords records course category rank ↔
        r ∈ byCourseCategory records course category ∧ rank ≤ r.cutoff_rank) := by
  constructor
  · intro g hg o ho
    exact mem_predictGrouped_eligible records course category rank g o hg ho
  · intro r
    simp [eligibleRecords, List.mem_filter]

/-- Witness for C1 on the spec's worked example at rank 4500. -/
theorem claim_C1_witness :
    ((⟨"E001", "Example Inst.", [⟨"CS", "", 5000⟩, ⟨"EC", "", 8000⟩]⟩ : GroupedRow)
        ∈ predictGrouped sampleRecords "engineering" "GM" 4500
      ∧ (⟨"CS", "", 5000⟩ : BranchOffering)
        ∈ (⟨"E001", "Example Inst.", [⟨"CS", "", 5000⟩, ⟨"EC", "", 8000⟩]⟩ : GroupedRow).branches)
    ∧ 4500 ≤ (⟨"CS", "", 5000⟩ : BranchOffering).cutoff_rank :=
  ⟨⟨by decide, by decide⟩,
    (claim_C1_grouped_eligibility sampleRecords "engineering" "GM" 4500).1
      ⟨"E001", "Example Inst.", [⟨"CS", "", 5000⟩, ⟨"EC", "", 8000⟩]⟩ (by decide)
      ⟨"CS", "", 5000⟩ (by decide)⟩

/-- C2: For every fixed course, category, and rank, flattening the output of
the branch-omitted predict path yields the same set of
(college_code, branch_code, cutoff_rank) triples as the union over all
branches of the branch-supplied predict path. -/
theorem claim_C2_grouped_equals_branch_union (records : List CutoffRecord)
    (course category : String) (rank : Nat) (t : String × String × Nat) :
    t ∈ groupedTriples records course category rank ↔
      t ∈ unionTriples records course category rank := by
  rw [mem_groupedTriples]
  constructor
  · rintro ⟨r, hr, ht⟩
    rw [mem_eligibleRecords] at hr
    obtain ⟨hrec, hco, hca, hrk⟩ := hr
    simp only [unionTriples, List.mem_flatMap]
    refine ⟨r.branch_code, ?_, ?_⟩
    · rw [mem_distinctBranches]
      exact ⟨r, hrec, hco, rfl⟩
    · rw [mem_flatTriples]
      exact ⟨r, hrec, hco, hca, rfl, hrk, ht⟩
  · intro h
    simp only [unionTriples, List.mem_flatMap] at h
    obtain ⟨b, hb, ht⟩ := h
    rw [mem_flatTriples] at ht
    obtain ⟨r, hrec, hco, hca, hbc, hrk, ht⟩ := ht
    exact ⟨r,
      (mem_eligibleRecords records course category rank r).mpr ⟨hrec, hco, hca, hrk⟩, ht⟩

/-- C4: The predict response has exactly two shapes that the consumer never
needs to infer: a flat row sequence when a branch is supplied, a grouped row
sequence when the branch is omitted; the shape is a function of branch
presence alone, and coincides with the front end's own table-mode choice
(which branches on its `branch` state, not on the payload). -/
theorem claim_C4_two_response_shapes (records : List CutoffRecord)
    (course category : String) (rank : Nat) (branch : String) :
    isFlatShape (predict records course category rank (mkBranchParam branch)) =
        rendersFlatTable branch
    ∧ (∀ b, predict records course category rank (some b) =
        PredictResponse.flat (predictFlat records course category rank b))
    ∧ predict records course category rank none =
        PredictResponse.grouped (predictGrouped records course category rank) := by
  refine ⟨?_, fun b => rfl, rfl⟩
  by_cases hb : branch = "" <;>
    simp [mkBranchParam, rendersFlatTable, predict, isFlatShape, hb]

/-- C9: On a successful categories fetch that returns a non-empty list, the
selected category becomes the first element; an empty list or a failed fetch
leaves the selected category as the empty string. -/
theorem claim_C9_default_category :
    (∀ c cs, categoryAfterMount (some (c :: cs)) = c)
    ∧ categoryAfterMount (some []) = ""
    ∧ categoryAfterMount none = "" := by
  refine ⟨fun c cs => ?_, rfl, rfl⟩
  simp [categoryAfterMount, onCategoriesFetched]

/-- C10: The branch dropdown codes are derived from the `/branches` payload
by taking, for each returned string, the substring before the first space
character; an entry with no space is kept whole. -/
theorem claim_C10_codes_before_first_space (payload : List (List Char)) :
    branchCodesFromPayload payload =
      payload.map (fun b => b.takeWhile (fun c => !(c == ' ')))
    ∧ ∀ b : List Char, (∀ c ∈ b, c ≠ ' ') → branchCodeOf b = b := by
  constructor
  · simp [branchCodesFromPayload, branchCodeOf_eq_takeWhile]
  · intro b hb
    rw [branchCodeOf_eq_takeWhile]
    exact List.takeWhile_eq_self_iff.mpr (fun a ha => by simpa using hb a ha)

/-- Witness for C10 on the space-free payload entry "CS". -/
theorem claim_C10_witness :
    (∀ c ∈ ['C', 'S'], c ≠ ' ') ∧ branchCodeOf ['C', 'S'] = ['C', 'S'] :=
  ⟨by decide, (claim_C10_codes_before_first_space []).2 ['C', 'S'] (by decide)⟩

/-- C7: The static branch-code-to-name lookup is total and never raises:
codes present in BRANCH_MAP display their human-readable name, absent codes
display the empty string. -/
theorem claim_C7_branch_name_total :
    (∀ code name, (code, name) ∈ BRANCH_MAP → displayedBranchName code = name)
    ∧ (∀ code, BRANCH_MAP.lookup code = none → displayedBranchName code = "") := by
  constructor
  · intro code name hmem
    have hnd : (BRANCH_MAP.map Prod.fst).Nodup := by decide
    have hlk : BRANCH_MAP.lookup code = some name := lookup_of_mem hnd hmem
    have hne : name ≠ "" := by
      have hall : ∀ p ∈ BRANCH_MAP, p.2 ≠ "" := by decide
      exact hall (code, name) hmem
    simp [displayedBranchName, hlk, hne]
  · intro code h
    simp [displayedBranchName, h]

/-- Witness for C7 at the present code "AI" and the absent code "QQ". -/
theorem claim_C7_witness :
    (("AI", "Artificial Intelligence") ∈ BRANCH_MAP
      ∧ displayedBranchName "AI" = "Artificial Intelligence")
    ∧ (BRANCH_MAP.lookup "QQ" = none ∧ displayedBranchName "QQ" = "") :=
  ⟨⟨by decide, claim_C7_branch_name_total.1 "AI" "Artificial Intelligence" (by decide)⟩,
    ⟨by decide, claim_C7_branch_name_total.2 "QQ" (by decide)⟩⟩

/-- C8: Every predict submission first clears the previous results and error
state: the handler's outcome is independent of the pre-submit state, and any
final state showing an error has an empty results list. -/
theorem claim_C8_submit_clears_state (ρ : Type) (prev prev2 : AppState ρ)
    (rank category branch : String) (fetch : FetchOutcome ρ) :
    handleSubmit prev rank category branch fetch =
        handleSubmit prev2 rank category branch fetch
    ∧ ((handleSubmit prev rank category branch fetch).1.error ≠ "" →
        (handleSubmit prev rank category branch fetch).1.results = []) := by
  refine ⟨rfl, ?_⟩
  cases hp : jsParseInt rank with
  | none => simp [handleSubmit, hp]
  | some n =>
    by_cases h0 : n ≤ 0
    · simp [handleSubmit, hp, h0]
    · by_cases hc : category = ""
      · simp [handleSubmit, hp, h0, hc]
      · cases fetch <;> simp [handleSubmit, hp, h0, hc]

/-- Witness for C8: a rejected submission (non-numeric rank) over a stale
state ends with an error shown and an empty results list. -/
theorem claim_C8_witness :
    ((handleSubmit (⟨[()], "stale", false⟩ : AppState Unit) "abc" "GM" ""
        (FetchOutcome.ok [])).1.error ≠ "")
    ∧ (handleSubmit (⟨[()], "stale", false⟩ : AppState Unit) "abc" "GM" ""
        (FetchOutcome.ok [])).1.results = [] :=
  ⟨by decide,
    (claim_C8_submit_clears_state Unit ⟨[()], "stale", false⟩ ⟨[()], "stale", false⟩
      "abc" "GM" "" (FetchOutcome.ok [])).2 (by decide)⟩

/-- Counterexample to C3 as stated: the submission handler of
`src/unnamed/part_000` (one of the claim's cited handlers) issues the
predict request for rank "-5" and an empty category — `parseInt("-5")` is a
number, so its only check passes although the rank is not positive and the
category field is empty. -/
theorem claim_C3_counterexample :
    jsParseInt "-5" = some (-5) ∧ ¬ ((0 : Int) < -5) ∧
      (handleSubmit_v0 (⟨[], "", false⟩ : AppState Unit) "-5" "" "AI"
          (FetchOutcome.ok [])).2
        = some [("rank", "-5"), ("category", ""), ("branch", "AI")] := by
  refine ⟨by decide, by decide, ?_⟩
  decide

/-- C3 (amended): the current submission handler (`src/unnamed/part_001` /
the second `App.js`) issues the predict request iff `parseInt(rank, 10)`
yields a positive integer and the category is non-empty; otherwise it sets
the field-naming error message and sends nothing, never substituting a
default. -/
theorem claim_C3_submit_validation (ρ : Type) (prev : AppState ρ)
    (rank category branch : String) (fetch : FetchOutcome ρ) :
    ((handleSubmit prev rank category branch fetch).2.isSome = true ↔
      (∃ n, jsParseInt rank = some n ∧ 0 < n) ∧ category ≠ "")
    ∧ (jsParseInt rank = none →
        handleSubmit prev rank category branch fetch =
          ({ results := [], error := validRankMsg, loading := false }, none))
    ∧ (∀ n, jsParseInt rank = some n → n ≤ 0 →
        handleSubmit prev rank category branch fetch =
          ({ results := [], error := validRankMsg, loading := false }, none))
    ∧ (∀ n, jsParseInt rank = some n → 0 < n → category = "" →
        handleSubmit prev rank category branch fetch =
          ({ results := [], error := selectCategoryMsg, loading := false }, none))
    ∧ (∀ n, jsParseInt rank = some n → 0 < n → category ≠ "" →
        (handleSubmit prev rank category branch fetch).2 =
          some (predictParams n category branch)) := by
  cases hp : jsParseInt rank with
  | none => simp [handleSubmit, hp]
  | some n =>
    by_cases h0 : n ≤ 0
    · simp only [handleSubmit, hp]
      rw [if_pos h0]
      simp only [Option.isSome_none, Option.some.injEq]
      refine ⟨?_, ?_, ?_, ?_, ?_⟩
      · simp only [Bool.false_eq_true, false_iff, not_and]
        rintro ⟨m, hm, hm0⟩
        exfalso
        omega
      · intro h
        simp at h
      · intro m _hm _h
        trivial
      · intro m hm hm0 _hc
        exfalso
        omega
      · intro m hm hm0 _hc
        exfalso
        omega
    · by_cases hc : category = ""
      · simp only [handleSubmit, hp]
        rw [if_neg h0, if_pos hc]
        refine ⟨?_, ?_, ?_, ?_, ?_⟩
        · simp [hc]
        · intro h
          simp at h
        · intro m hm hm0
          rw [Option.some.injEq] at hm
          omega
        · intro m _hm _h0 _hc
          rfl
        · intro m _hm _h0 hcne
          exact absurd hc hcne
      · cases fetch <;>
          · simp only [handleSubmit, hp]
            rw [if_neg h0, if_neg hc]
            refine ⟨?_, ?_, ?_, ?_, ?_⟩
            · simp only [Option.isSome_some, true_iff]
              exact ⟨⟨n, rfl, by omega⟩, hc⟩
            · intro h
              simp at h
            · intro m hm hm0
              rw [Option.some.injEq] at hm
              omega
            · intro m _hm _h0 hceq
              exact absurd hceq hc
            · intro m hm _h0 _hc
              rw [Option.some.injEq] at hm
              subst hm
              rfl

/-- Witness for C3 (amended): rank "19024", category "GM" issues the
request with exactly the rank and category parameters. -/
theorem claim_C3_witness :
    (jsParseInt "19024" = some 19024 ∧ (0 : Int) < 19024 ∧ ("GM" : String) ≠ "")
    ∧ (handleSubmit (⟨[], "", false⟩ : AppState Unit) "19024" "GM" ""
        (FetchOutcome.ok [])).2 = some (predictParams 19024 "GM" "") :=
  ⟨⟨by decide, by decide, by decide⟩,
    (claim_C3_submit_validation Unit ⟨[], "", false⟩ "19024" "GM" ""
      (FetchOutcome.ok [])).2.2.2.2 19024 (by decide) (by decide) (by decide)⟩

/-- Counterexample to C5 as stated: the `src/unnamed/part_000` handler (one
of the claim's cited handlers) always appends the branch parameter, so an
empty branch selection still produces a request whose parameters contain
"branch" with an empty value. -/
theorem claim_C5_counterexample :
    (handleSubmit_v0 (⟨[], "", false⟩ : AppState Unit) "100" "GM" ""
        (FetchOutcome.ok [])).2
      = some [("rank", "100"), ("category", "GM"), ("branch", "")]
    ∧ "branch" ∈ [("rank", "100"), ("category", "GM"), ("branch", "")].map Prod.fst := by
  refine ⟨?_, by decide⟩
  decide

/-- C5 (amended): in the current handlers (`src/unnamed/part_001` submit and
`src/unnamed/part_002` find-colleges), the issued request's parameters
contain a branch parameter iff the branch selection is non-empty. -/
theorem claim_C5_branch_param_optional (ρ : Type) (prev : AppState ρ)
    (rank category branch : String) (fetch : FetchOutcome ρ) :
    (∀ ps, (handleSubmit prev rank category branch fetch).2 = some ps →
      ("branch" ∈ ps.map Prod.fst ↔ branch ≠ ""))
    ∧ (∀ course ps, onFindCollegesParams course rank category branch = some ps →
        ("branch" ∈ ps.map Prod.fst ↔ branch ≠ "")) := by
  constructor
  · intro ps hps
    cases hp : jsParseInt rank with
    | none => simp [handleSubmit, hp] at hps
    | some n =>
      by_cases h0 : n ≤ 0
      · rw [handleSubmit] at hps
        simp only [hp] at hps
        rw [if_pos h0] at hps
        simp at hps
      · by_cases hc : category = ""
        · rw [handleSubmit] at hps
          simp only [hp] at hps
          rw [if_neg h0, if_pos hc] at hps
          simp at hps
        · have hps2 : ps = predictParams n category branch := by
            rw [handleSubmit] at hps
            simp only [hp] at hps
            rw [if_neg h0, if_neg hc] at hps
            cases fetch <;> simpa using hps.symm
          subst hps2
          by_cases hb : branch = "" <;> simp [predictParams, hb]
  · intro course ps hps
    rw [onFindCollegesParams] at hps
    split at hps
    · simp at hps
    · rw [Option.some.injEq] at hps
      subst hps
      by_cases hb : branch = "" <;> simp [hb]

/-- Witness for C5 (amended): a submission with branch "AI" issues a request
whose parameters contain "branch". -/
theorem claim_C5_witness :
    ((handleSubmit (⟨[], "", false⟩ : AppState Unit) "100" "GM" "AI"
        (FetchOutcome.ok [])).2
      = some [("rank", "100"), ("category", "GM"), ("branch", "AI")])
    ∧ ("branch" ∈ [("rank", "100"), ("category", "GM"), ("branch", "AI")].map Prod.fst
        ↔ ("AI" : String) ≠ "") :=
  ⟨by decide,
    (claim_C5_branch_param_optional Unit ⟨[], "", false⟩ "100" "GM" "AI"
      (FetchOutcome.ok [])).1
      [("rank", "100"), ("category", "GM"), ("branch", "AI")] (by decide)⟩

/-- Counterexample to C6 as stated: the `src/unnamed/part_002` consumer
(one of the claim's cited consumers) does not render an empty result
distinctly from a failed request — its predict catch only clears `results`,
keeping no error state, so after a failed request its state equals the
state after an empty success and the identical
"No eligible colleges found." row is shown in both cases. -/
theorem claim_C6_counterexample :
    onFindCollegesResults (FetchOutcome.httpError "Internal Server Error" : FetchOutcome Unit)
        = onFindCollegesResults (FetchOutcome.ok ([] : List Unit))
    ∧ showsNoCollegesRow
        (onFindCollegesResults
          (FetchOutcome.httpError "Internal Server Error" : FetchOutcome Unit)) = true :=
  ⟨rfl, rfl⟩

/-- C6 (amended): A valid query matching zero records is a success with an
empty sequence, not an error — the branch-omitted engine path returns an
empty row list exactly when no record survives — and the
`part_001`/`App.js` consumer shows the non-error informational message for
an empty success while the error box (and not the informational message)
appears on a failed request; the cited `part_002` consumer keeps no predict
error state and renders a failed request exactly like an empty success. -/
theorem claim_C6_empty_result_not_error :
    (∀ (records : List CutoffRecord) (course category : String) (rank : Nat),
      predictGrouped records course category rank = [] ↔
        eligibleRecords records course category rank = [])
    ∧ (∀ (ρ : Type) (prev : AppState ρ) (rank category branch : String) (n : Int),
        jsParseInt rank = some n → 0 < n → category ≠ "" →
          (showsInfoMessage (handleSubmit prev rank category branch
              (FetchOutcome.ok ([] : List ρ))).1 = true
            ∧ showsErrorBox (handleSubmit prev rank category branch
              (FetchOutcome.ok ([] : List ρ))).1 = false
            ∧ ∀ d, showsErrorBox (handleSubmit prev rank category branch
                  (FetchOutcome.httpError d)).1 = true
                ∧ showsInfoMessage (handleSubmit prev rank category branch
                  (FetchOutcome.httpError d)).1 = false)) := by
  constructor
  · intro records course category rank
    simp only [predictGrouped]
    constructor
    · intro h
      have h1 := List.map_eq_nil_iff.mp h
      have h2 := (dedupFirst_eq_nil _).mp h1
      exact List.map_eq_nil_iff.mp h2
    · intro h
      simp [h, dedupFirst]
  · intro ρ prev rank category branch n hp h0 hc
    have hn0 : ¬ n ≤ 0 := by omega
    refine ⟨?_, ?_, fun d => ⟨?_, ?_⟩⟩ <;>
      · rw [handleSubmit]
        simp only [hp]
        rw [if_neg hn0, if_neg hc]
        simp [showsInfoMessage, showsErrorBox, Bool.not_eq_true',
          beq_eq_false_iff_ne, fetchErrMsg_ne_empty]

/-- Witness for C6: a valid query (rank 4500, category "GM") whose response
is the empty list renders the informational message, not the error box. -/
theorem claim_C6_witness :
    (jsParseInt "4500" = some 4500 ∧ (0 : Int) < 4500 ∧ ("GM" : String) ≠ "")
    ∧ showsInfoMessage (handleSubmit (⟨[], "", false⟩ : AppState Unit) "4500" "GM" ""
        (FetchOutcome.ok [])).1 = true :=
  ⟨⟨by decide, by decide, by decide⟩,
    ((claim_C6_empty_result_not_error).2 Unit ⟨[], "", false⟩ "4500" "GM" "" 4500
      (by decide) (by decide) (by decide)).1⟩

end CollegePredictor
